import Mathlib

/-!
Verification of the L1Beat frontend data-fetching layer.

This file gives a shallow embedding of the core client-side logic of the
repository — the retry-wrapped HTTP fetch (`fetchWithRetry` in `src/api.ts`),
the TTL cache (`fetchWithCache` in `src/api.ts`), the typed accessor
`getTPSHistory`, the validator normalization in `getChains`, and the pure
derived-metric transforms (`calculateScore` in `appStore.jsx`,
`calculateStakeDistribution` in `BlockchainDetails.jsx`, `deduplicateByDate`
in `TVLGraph.jsx`) — and proves or refutes the specified properties.

Modelling conventions:
* JavaScript numbers are modelled by `ℚ`; the non-finite results `NaN` and
  `Infinity` are modelled by `Option ℚ` with `none` for the non-finite case.
* Raw backend field values that may be non-numeric are modelled by `RawVal`:
  either a clean numeric value or a malformed value on which both
  `parseFloat` and `Number` yield `NaN`.
* Asynchronous fetch attempts are modelled by an oracle `Nat → AttemptOutcome`
  giving the outcome of each attempt; thrown JS errors carry just the data the
  code inspects (`error instanceof TypeError`, `error.message.includes s`).
* `Date.now()` timestamps are explicit `Int` parameters; the module-level
  mutable cache `Map` is explicit state (`CacheMap`) threaded through calls.
* `Array.prototype.sort` with a numeric comparator (a stable sort in JS) is
  modelled by Mathlib's stable `List.insertionSort`.
-/

namespace L1Beat

/-- A raw backend value for a numeric-looking field: either a clean numeric
value, or a malformed (non-numeric) value.  `parseFloat` and `Number` both
produce `NaN` on the malformed case. -/
inductive RawVal where
  | num (q : ℚ)
  | malformed
deriving DecidableEq

/-- JS `parseFloat`, with `none` modelling `NaN`. -/
def parseFloat : RawVal → Option ℚ
  | RawVal.num q => some q
  | RawVal.malformed => none

/-- JS `Number(x)` coercion, with `none` modelling `NaN`. -/
def jsNumber : RawVal → Option ℚ
  | RawVal.num q => some q
  | RawVal.malformed => none

/-- JS `x || 0`: `NaN` and `0` are falsy and map to `0`. -/
def orZero : Option ℚ → ℚ
  | some q => if q = 0 then 0 else q
  | none => 0

/-- JS `x || d` on an optional numeric `x`: `NaN`, missing and `0` are falsy. -/
def jsOrNum (a : Option ℚ) (d : ℚ) : ℚ :=
  match a with
  | some q => if q = 0 then d else q
  | none => d

/-! ### fetchWithRetry (src/api.ts, lines 35–105) -/

/-- The data of a thrown JS error that `fetchWithRetry`'s catch block
inspects: whether it is a `TypeError` and whether its message contains the
substring `CORS`. -/
structure JsError where
  isTypeError : Bool
  messageHasCORS : Bool
deriving DecidableEq

/-- The CORS check in the catch block:
`error instanceof TypeError && error.message.includes('CORS')`. -/
def isCorsError (e : JsError) : Bool :=
  e.isTypeError && e.messageHasCORS

/-- Outcome of one attempt of the `try` block of `fetchWithRetry`: either the
parsed JSON payload, or a thrown error (covering non-ok HTTP statuses,
invalid content type, network errors, and aborts alike — the code converts
all of these into thrown errors before the catch block classifies them). -/
inductive AttemptOutcome (α : Type) where
  | success (v : α)
  | thrown (e : JsError)

/-- Whether an attempt outcome is a success. -/
def isSuccessB {α : Type} : AttemptOutcome α → Bool
  | AttemptOutcome.success _ => true
  | AttemptOutcome.thrown _ => false

/-- Whether an attempt outcome is a failure that the loop retries
(thrown, and not classified as a CORS error). -/
def isRetryableFailure {α : Type} : AttemptOutcome α → Bool
  | AttemptOutcome.success _ => false
  | AttemptOutcome.thrown e => !isCorsError e

/-- The runtime outcome of a JS function call: a returned value, or an
exception propagating to the caller. -/
inductive FetchResult (α : Type) where
  | value (v : α)
  | thrown (e : JsError)

/-- The `ReferenceError: T is not defined` raised by evaluating
`fallbackData[T.name]`: a `ReferenceError` is not a `TypeError` and its
message does not contain `CORS`. -/
def referenceErrorT : JsError :=
  ⟨false, false⟩

/-- `getFallbackData<T>()` (src/api.ts, lines 108–144).  The function builds
the `fallbackData` record, but its return expression `fallbackData[T.name]`
reads the erased type parameter `T` as a runtime value; no runtime binding
named `T` exists (a TS2693 compile error under `tsc`, and a thrown
`ReferenceError` under type-stripping transpilation), so every call throws
instead of returning an entry of the table. -/
def getFallbackData (α : Type) : FetchResult α :=
  FetchResult.thrown referenceErrorT

/-- The `while (attempt < retries)` loop of `fetchWithRetry`, with
`fuel = retries - attempt` as the structural recursion measure.  `attempts`
is the oracle giving the outcome of the fetch at each attempt index.
On success the payload is returned; on a CORS-classified error the catch
block executes `return getFallbackData<T>()` at once; on any other error
the loop advances to the next attempt; when the attempts are exhausted
`return getFallbackData<T>()` runs after the loop.  Both of those sites
therefore throw the `ReferenceError` from `getFallbackData` rather than
returning a fallback value. -/
def fetchWithRetryGo {α : Type} (attempts : Nat → AttemptOutcome α) :
    Nat → Nat → FetchResult α
  | 0, _ => getFallbackData α
  | fuel + 1, attempt =>
    match attempts attempt with
    | AttemptOutcome.success v => FetchResult.value v
    | AttemptOutcome.thrown e =>
      if isCorsError e then getFallbackData α
      else fetchWithRetryGo attempts fuel (attempt + 1)

/-- `fetchWithRetry(url, options, retries, ...)` from `src/api.ts`, modelled
over the attempt oracle for the declared payload type `α`. -/
def fetchWithRetry {α : Type} (attempts : Nat → AttemptOutcome α)
    (retries : Nat) : FetchResult α :=
  fetchWithRetryGo attempts retries 0

/-- Number of invocations of the underlying transport (`fetch`) performed by
the loop of `fetchWithRetry`, starting at a given attempt index with the
given fuel. -/
def fetchCallsGo {α : Type} (attempts : Nat → AttemptOutcome α) :
    Nat → Nat → Nat
  | 0, _ => 0
  | fuel + 1, attempt =>
    match attempts attempt with
    | AttemptOutcome.success _ => 1
    | AttemptOutcome.thrown e =>
      if isCorsError e then 1
      else 1 + fetchCallsGo attempts fuel (attempt + 1)

/-- Number of transport invocations of a whole `fetchWithRetry` call. -/
def fetchCalls {α : Type} (attempts : Nat → AttemptOutcome α) (retries : Nat) : Nat :=
  fetchCallsGo attempts retries 0

/-- The error produced by `fetch` when its `AbortSignal` is already aborted:
a `DOMException` named `AbortError` — not a `TypeError`, so the catch block
treats it as a retryable failure. -/
def abortErrorJs : JsError :=
  ⟨false, false⟩

/-- The attempt oracle as seen through the single `AbortController` of one
`fetchWithRetry` call: the controller and its timeout timer are created once
before the loop (lines 45–46) and never reset between attempts, so once the
timeout fires — before attempt index `a` — every attempt from `a` on fails
immediately with an abort error. -/
def abortedTrace {α : Type} (a : Nat) (attempts : Nat → AttemptOutcome α) :
    Nat → AttemptOutcome α :=
  fun i => if a ≤ i then AttemptOutcome.thrown abortErrorJs else attempts i

/-! ### Accessor fallback values

Each accessor's own `catch` block returns a default literal written out in
the accessor body (not obtained through the broken `getFallbackData`);
time-dependent fields (`new Date().toISOString()`) are explicit
parameters. -/

/-- The application's `TVLHealth` shape. -/
structure TVLHealth where
  lastUpdate : String
  ageInHours : ℚ
  tvl : ℚ
  status : String
deriving DecidableEq

/-- The value returned by `getTVLHealth`'s catch block (src/api.ts, lines
214–219): zeroed and flagged `stale`. -/
def tvlHealthFallback (nowIso : String) : TVLHealth :=
  ⟨nowIso, 0, 0, "stale"⟩

/-! ### fetchWithCache (src/api.ts, lines 18–33) -/

/-- One entry of the module-level cache `Map`: the stored payload and the
`Date.now()` timestamp at which it was stored. -/
structure CacheEntry (α : Type) where
  data : α
  timestamp : Int
deriving DecidableEq

/-- The module-level cache `Map<string, {data, timestamp}>`, as an
association list in insertion order. -/
def CacheMap (α : Type) : Type :=
  List (String × CacheEntry α)

/-- `cache.get(key)`. -/
def cacheGet {α : Type} : CacheMap α → String → Option (CacheEntry α)
  | [], _ => none
  | x :: xs, k => if x.1 = k then some x.2 else cacheGet xs k

/-- `cache.set(key, entry)`: replaces in place if the key is present,
appends otherwise (JS `Map` semantics). -/
def cacheSet {α : Type} : CacheMap α → String → CacheEntry α → CacheMap α
  | [], k, e => [(k, e)]
  | x :: xs, k, e => if x.1 = k then (k, e) :: xs else x :: cacheSet xs k e

/-- Result of one `fetchWithCache` call: the returned value, the cache state
after the call, and whether the fetcher was invoked. -/
structure CacheCallResult (α : Type) where
  value : α
  cache : CacheMap α
  fetcherInvoked : Bool

/-- `fetchWithCache(key, fetcher, duration)` from `src/api.ts`, with the
cache state and `Date.now()` passed explicitly and `fetcherResult` standing
for the value the fetcher would produce if invoked.  A cached entry is served
exactly when it exists and `now - cached.timestamp < duration`; otherwise the
fetcher runs and its result is stored under `key` with timestamp `now`. -/
def fetchWithCache {α : Type} (key : String) (fetcherResult : α) (duration : Int)
    (c : CacheMap α) (now : Int) : CacheCallResult α :=
  match cacheGet c key with
  | some cached =>
    if now - cached.timestamp < duration then ⟨cached.data, c, false⟩
    else ⟨fetcherResult, cacheSet c key ⟨fetcherResult, now⟩, true⟩
  | none => ⟨fetcherResult, cacheSet c key ⟨fetcherResult, now⟩, true⟩

/-! ### Raw validators and the getChains normalization (src/api.ts, 146–169) -/

/-- A raw backend validator record, with the fields the core code reads. -/
structure RawValidator where
  nodeId : String
  validationStatus : String
  amountStaked : RawVal
  uptimePerformance : RawVal
deriving DecidableEq

/-- The explorer base URL constant of `src/api.ts`. -/
def EXPLORER_URL : String := "https://subnets.avax.network"

/-- The application-side validator shape produced by `getChains`:
`weight` is `Number(amountStaked)` (so `none`, i.e. `NaN`, on malformed
input) and `uptime` is the backend's `uptimePerformance` passed through
unchanged. -/
structure Validator where
  address : String
  active : Bool
  uptime : RawVal
  weight : Option ℚ
  explorerUrl : Option String
deriving DecidableEq

/-- The per-validator mapping inside `getChains` (src/api.ts, lines 156–162);
`chainHasExplorerUrl` models the truthiness of `chain.explorerUrl`. -/
def mapValidator (chainHasExplorerUrl : Bool) (v : RawValidator) : Validator :=
  { address := v.nodeId
  , active := v.validationStatus == "active"
  , uptime := v.uptimePerformance
  , weight := jsNumber v.amountStaked
  , explorerUrl :=
      if chainHasExplorerUrl then some (EXPLORER_URL ++ "/validators/" ++ v.nodeId)
      else none }

/-! ### calculateScore (appStore.jsx, lines 17–72) -/

/-- The active-validator filter of `calculateScore`:
`!isNaN(parseFloat(v.amountStaked)) && stake > 0 && v.validationStatus === 'active'`. -/
def isActiveForScore (v : RawValidator) : Bool :=
  match parseFloat v.amountStaked with
  | none => false
  | some stake => decide (0 < stake) && (v.validationStatus == "active")

/-- `calculateScore(validators, tvl, tps)` from `appStore.jsx`.  The `tvl`
and `tps` arguments are accepted and ignored, as in the source.  `Math.round`
is Mathlib's `round` (round half towards positive infinity, as in JS) and
`Math.min(·, 100)` is `min · 100`. -/
def calculateScore (validators : List RawValidator) (tvl tps : ℚ) : Int :=
  let activeValidators := validators.filter isActiveForScore
  if activeValidators.length = 0 then 0
  else
    let score : ℚ := 0 + 20
    let score : ℚ := if 5 < activeValidators.length then score + 20 else score
    let score : ℚ := if activeValidators.length = 10 then 85 else score
    let score : ℚ :=
      if 10 < activeValidators.length then
        85 + min (((activeValidators.length : ℚ) - 10) / 90 * 15) 15
      else score
    min (round score) 100

/-- The score as a function of the active-validator count, in the form the
specification states it: 0 at zero, 20 for 1–5, 40 for 6–9, exactly 85 at
10, and `round(85 + min((n-10)/90*15, 15))` capped at 100 above 10. -/
def scoreOfCount (n : Nat) : Int :=
  if n = 0 then 0
  else if n ≤ 5 then 20
  else if n ≤ 9 then 40
  else if n = 10 then 85
  else min (round ((85 : ℚ) + min (((n : ℚ) - 10) / 90 * 15) 15)) 100

/-! ### calculateStakeDistribution (BlockchainDetails.jsx) -/

/-- The active filter of `calculateStakeDistribution`: status equality only
(no stake condition, unlike `calculateScore`'s filter). -/
def isActiveStatus (v : RawValidator) : Bool :=
  v.validationStatus == "active"

/-- `validators.filter(v => v.validationStatus === 'active')`. -/
def activeValidatorsOf (vs : List RawValidator) : List RawValidator :=
  vs.filter isActiveStatus

/-- The coerced stake of one validator:
`parseFloat(validator.amountStaked) || 0` (so `NaN` coerces to `0`). -/
def coercedStake (v : RawValidator) : ℚ :=
  orZero (parseFloat v.amountStaked)

/-- `activeValidators.reduce((sum, v) => sum + (parseFloat(v.amountStaked) || 0), 0)`. -/
def totalActiveStake (vs : List RawValidator) : ℚ :=
  (activeValidatorsOf vs).foldl (fun s v => s + coercedStake v) 0

/-- One entry of the stake distribution.  `value` is
`Number(percentage.toFixed(2))`; it is `none` when the percentage is not a
finite number (division by a zero total stake), otherwise the percentage
rounded to two decimals.  The random `fill` color is not modelled. -/
structure StakeDistEntry where
  name : String
  value : Option ℚ
  stake : ℚ
deriving DecidableEq

/-- `toFixed(2)` followed by `Number`: rounding to two decimal places. -/
def roundTo2 (p : ℚ) : ℚ :=
  (round (p * 100) : ℤ) / 100

/-- The entry built for one active validator, given the total active stake. -/
def stakeDistEntryOf (total : ℚ) (v : RawValidator) : StakeDistEntry :=
  let stake := coercedStake v
  let percentage : Option ℚ :=
    if total = 0 then none else some (stake / total * 100)
  ⟨v.nodeId, percentage.map roundTo2, stake⟩

/-- The descending comparator `(a, b) => b.value - a.value` as a relation:
`a` may precede `b` when the comparator is `≤ 0`, i.e. `b.value ≤ a.value`;
a comparator result of `NaN` (either value non-finite) is treated as `0` by
JS `sort`, leaving the pair's order unchanged, which the stable
`insertionSort` models by letting either element come first. -/
def stakeDescLe (a b : StakeDistEntry) : Prop :=
  match a.value, b.value with
  | some x, some y => y ≤ x
  | _, _ => True

instance : DecidableRel stakeDescLe := fun a b => by
  unfold stakeDescLe
  exact match a.value, b.value with
  | some _, some _ => inferInstanceAs (Decidable (_ ≤ _))
  | some _, none => inferInstanceAs (Decidable True)
  | none, _ => inferInstanceAs (Decidable True)

/-- `calculateStakeDistribution(validators)` from `BlockchainDetails.jsx`:
empty on an empty input list, otherwise one entry per active validator,
sorted descending by `value`. -/
def calculateStakeDistribution (vs : List RawValidator) : List StakeDistEntry :=
  match vs with
  | [] => []
  | _ :: _ =>
    List.insertionSort stakeDescLe
      ((activeValidatorsOf vs).map (stakeDistEntryOf (totalActiveStake vs)))

/-! ### deduplicateByDate (TVLGraph.jsx, lines 13–24) -/

/-- One TVL sample: unix-second timestamp and TVL value. -/
structure TVLEntry where
  date : Int
  tvl : ℚ
deriving DecidableEq

/-- `new Date(entry.date * 1000).setHours(0, 0, 0, 0)`: the epoch-millis of
the local midnight of the sample's calendar day.  `tz` is the local UTC
offset in seconds (a fixed offset; daylight-saving transitions are not
modelled), and `fdiv` is flooring division. -/
def dayKey (tz : Int) (t : Int) : Int :=
  (((t + tz).fdiv 86400) * 86400 - tz) * 1000

/-- `dateMap.get(k)` on the day map (association list in insertion order). -/
def alookup (k : Int) : List (Int × TVLEntry) → Option TVLEntry
  | [] => none
  | x :: xs => if x.1 = k then some x.2 else alookup k xs

/-- One step of the `forEach` loop of `deduplicateByDate`:
`if (!dateMap.has(date) || dateMap.get(date).date < entry.date) dateMap.set(date, entry)`.
A fresh key appends; a strictly newer entry replaces in place. -/
def mapUpsert (tz : Int) (m : List (Int × TVLEntry)) (e : TVLEntry) :
    List (Int × TVLEntry) :=
  let k := dayKey tz e.date
  match alookup k m with
  | none => m ++ [(k, e)]
  | some old =>
    if old.date < e.date then m.map (fun x => if x.1 = k then (k, e) else x)
    else m

/-- The ascending comparator `(a, b) => a.date - b.date` as a relation. -/
def dateLe (a b : TVLEntry) : Prop :=
  a.date ≤ b.date

instance : DecidableRel dateLe := fun a b =>
  inferInstanceAs (Decidable (a.date ≤ b.date))

instance : IsTotal TVLEntry dateLe :=
  ⟨fun a b => Int.le_total a.date b.date⟩

instance : IsTrans TVLEntry dateLe :=
  ⟨fun _ _ _ h h' => le_trans h h'⟩

/-- `deduplicateByDate(data)` from `TVLGraph.jsx`: build the day map by the
`forEach` loop, take its values in insertion order, and sort ascending by
timestamp. -/
def deduplicateByDate (tz : Int) (data : List TVLEntry) : List TVLEntry :=
  List.insertionSort dateLe ((data.foldl (mapUpsert tz) []).map Prod.snd)

/-- Loop invariant of the `forEach` of `deduplicateByDate` after processing
the input prefix `p`: every map entry is keyed by its sample's day, comes
from `p`, and has the maximal timestamp among the samples of `p` in its day
bucket; every sample of `p` has its day represented in the map; and the map
keys are pairwise distinct. -/
def MapInv (tz : Int) (p : List TVLEntry) (m : List (Int × TVLEntry)) : Prop :=
  (∀ x ∈ m, x.1 = dayKey tz x.2.date ∧ x.2 ∈ p ∧
    ∀ e ∈ p, dayKey tz e.date = x.1 → e.date ≤ x.2.date) ∧
    (∀ e ∈ p, ∃ x ∈ m, x.1 = dayKey tz e.date) ∧
    (m.map Prod.fst).Nodup

/-! ### getTPSHistory (src/api.ts, lines 224–255) -/

/-- One point of the application's TPS history shape. -/
structure TPSHistoryPoint where
  timestamp : ℚ
  totalTps : ℚ
  chainCount : ℚ
  date : ℚ
deriving DecidableEq

/-- A raw item of the backend TPS-history payload; each field is `some q`
when present with `typeof === 'number'`, `none` otherwise. -/
structure TPSItemRaw where
  timestamp : Option ℚ
  value : Option ℚ
  totalTps : Option ℚ
  chainCount : Option ℚ
deriving DecidableEq

/-- The backend envelope for TPS history: `{ success: bool, data: [...] }`;
`data = none` models a missing or non-array `data` field. -/
structure TPSEnvelope where
  success : Bool
  data : Option (List TPSItemRaw)

/-- The item filter of `getTPSHistory`:
`item && typeof item.timestamp === 'number' && (typeof item.value === 'number' || typeof item.totalTps === 'number')`. -/
def tpsItemOk (item : TPSItemRaw) : Bool :=
  item.timestamp.isSome && (item.value.isSome || item.totalTps.isSome)

/-- The per-item mapping of `getTPSHistory`:
`totalTps := Number(item.value || item.totalTps || 0)`,
`chainCount := Number(item.chainCount || 1)`, `date := item.timestamp`. -/
def tpsItemToPoint (item : TPSItemRaw) : TPSHistoryPoint :=
  let ts := item.timestamp.getD 0
  ⟨ts, jsOrNum item.value (jsOrNum item.totalTps 0), jsOrNum item.chainCount 1, ts⟩

/-- The ascending comparator `(a, b) => a.timestamp - b.timestamp`. -/
def tsLe (a b : TPSHistoryPoint) : Prop :=
  a.timestamp ≤ b.timestamp

instance : DecidableRel tsLe := fun a b =>
  inferInstanceAs (Decidable (a.timestamp ≤ b.timestamp))

/-- The envelope processing of `getTPSHistory`'s fetcher:
`if (!response.success || !Array.isArray(response.data)) return [];` then
filter, map and sort ascending by timestamp. -/
def processTPSHistory (env : TPSEnvelope) : List TPSHistoryPoint :=
  match env.success, env.data with
  | true, some items =>
    List.insertionSort tsLe ((items.filter tpsItemOk).map tpsItemToPoint)
  | _, _ => []

/-- The whole fetcher body of `getTPSHistory` including its `try`/`catch`:
any exception (network failure, property access on an undefined response)
is caught and converted to the empty list. -/
def getTPSHistoryResult (outcome : Except Unit TPSEnvelope) : List TPSHistoryPoint :=
  match outcome with
  | Except.error _ => []
  | Except.ok env => processTPSHistory env

/-! ## Theorems -/

/-! ### Retry loop lemmas -/

theorem retryGo_exhaust {α : Type} (attempts : Nat → AttemptOutcome α)
    (h : ∀ i, isRetryableFailure (attempts i) = true) :
    ∀ fuel s, fetchWithRetryGo attempts fuel s =
        FetchResult.thrown referenceErrorT ∧
      fetchCallsGo attempts fuel s = fuel := by
  intro fuel
  induction fuel with
  | zero => intro s; exact ⟨rfl, rfl⟩
  | succ n ih =>
    intro s
    have hs := h s
    cases hA : attempts s with
    | success v => rw [hA] at hs; simp [isRetryableFailure] at hs
    | thrown e =>
      rw [hA] at hs
      have hc : isCorsError e = false := by
        simpa [isRetryableFailure] using hs
      have := ih (s + 1)
      simp [fetchWithRetryGo, fetchCallsGo, hA, hc, this.1, this.2,
        Nat.add_comm 1 n]

theorem retryGo_cors {α : Type} (attempts : Nat → AttemptOutcome α)
    (e : JsError) (he : isCorsError e = true) :
    ∀ k fuel s, k < fuel →
      (∀ j, j < k → isRetryableFailure (attempts (s + j)) = true) →
      attempts (s + k) = AttemptOutcome.thrown e →
      fetchWithRetryGo attempts fuel s = FetchResult.thrown referenceErrorT ∧
        fetchCallsGo attempts fuel s = k + 1 := by
  intro k
  induction k with
  | zero =>
    intro fuel s hk _ hth
    obtain ⟨f, rfl⟩ := Nat.exists_eq_succ_of_ne_zero (Nat.pos_iff_ne_zero.mp hk)
    simp only [Nat.add_zero] at hth
    simp [fetchWithRetryGo, fetchCallsGo, hth, he, getFallbackData]
  | succ k ih =>
    intro fuel s hk hpre hth
    obtain ⟨f, rfl⟩ := Nat.exists_eq_succ_of_ne_zero (Nat.pos_iff_ne_zero.mp (Nat.lt_of_le_of_lt (Nat.zero_le _) hk))
    have h0 := hpre 0 (Nat.succ_pos k)
    simp only [Nat.add_zero] at h0
    cases hA : attempts s with
    | success v => rw [hA] at h0; simp [isRetryableFailure] at h0
    | thrown e0 =>
      rw [hA] at h0
      have hc0 : isCorsError e0 = false := by
        simpa [isRetryableFailure] using h0
      have hrec := ih f (s + 1) (Nat.lt_of_succ_lt_succ hk)
        (fun j hj => by
          have := hpre (j + 1) (Nat.succ_lt_succ hj)
          simpa [Nat.add_assoc, Nat.add_comm 1 j] using this)
        (by simpa [Nat.add_assoc, Nat.add_comm 1 k] using hth)
      simp [fetchWithRetryGo, fetchCallsGo, hA, hc0, hrec.1, hrec.2,
        Nat.add_comm 1 (k + 1)]

theorem retryGo_aborted {α : Type} (attempts : Nat → AttemptOutcome α)
    (a : Nat) (h : ∀ i, i < a → isSuccessB (attempts i) = false) :
    ∀ fuel s, fetchWithRetryGo (abortedTrace a attempts) fuel s =
      FetchResult.thrown referenceErrorT := by
  intro fuel
  induction fuel with
  | zero => intro s; rfl
  | succ n ih =>
    intro s
    by_cases hs : a ≤ s
    · have hA : abortedTrace a attempts s = AttemptOutcome.thrown abortErrorJs := by
        simp [abortedTrace, hs]
      simp [fetchWithRetryGo, hA, isCorsError, abortErrorJs, ih (s + 1)]
    · have hlt : s < a := Nat.lt_of_not_le hs
      have hA : abortedTrace a attempts s = attempts s := by
        simp [abortedTrace, hs]
      cases hAt : attempts s with
      | success v =>
        have := h s hlt
        rw [hAt] at this
        simp [isSuccessB] at this
      | thrown e =>
        by_cases hc : isCorsError e = true
        · simp [fetchWithRetryGo, hA, hAt, hc, getFallbackData]
        · simp only [Bool.not_eq_true] at hc
          simp [fetchWithRetryGo, hA, hAt, hc, ih (s + 1)]

/-! ### Cache lemmas -/

theorem cacheGet_cacheSet_self {α : Type} (c : CacheMap α) (k : String)
    (e : CacheEntry α) : cacheGet (cacheSet c k e) k = some e := by
  induction c with
  | nil => simp [cacheSet, cacheGet]
  | cons x xs ih =>
    by_cases h : x.1 = k
    · simp [cacheSet, h, cacheGet]
    · simp [cacheSet, h, cacheGet, ih]

/-! ### C1 -/

/-- C1: evaluating the code on the claim's scenario: when every attempt
fails with a retryable (non-CORS) error, the underlying transport is
invoked exactly `retries` times — that half of the claim holds — but the
call then executes `return getFallbackData<T>()` (src/api.ts, line 104),
which throws the `ReferenceError` from `fallbackData[T.name]`, so
`fetchWithRetry` throws to its caller and never returns the
type-appropriate fallback value, contrary to the claim and to the code's
own comment `Return fallback data for any error after all retries`. -/
theorem fetchWithRetry_exhausts_throws {α : Type}
    (attempts : Nat → AttemptOutcome α) (retries : Nat)
    (h : ∀ i, isRetryableFailure (attempts i) = true) :
    fetchCalls attempts retries = retries ∧
      fetchWithRetry attempts retries = FetchResult.thrown referenceErrorT ∧
      ∀ v : α, fetchWithRetry attempts retries ≠ FetchResult.value v := by
  have hmain := retryGo_exhaust attempts h retries 0
  refine ⟨hmain.2, hmain.1, ?_⟩
  intro v hv
  unfold fetchWithRetry at hv
  rw [hmain.1] at hv
  exact FetchResult.noConfusion hv

/-- C1 witness: three attempts all failing with a generic network error:
exactly three transport calls, then the thrown `ReferenceError` — no value
is ever returned. -/
theorem fetchWithRetry_exhausts_throws_witness :
    fetchCalls (α := List TPSHistoryPoint)
        (fun _ => AttemptOutcome.thrown ⟨false, false⟩) 3 = 3 ∧
      fetchWithRetry (α := List TPSHistoryPoint)
        (fun _ => AttemptOutcome.thrown ⟨false, false⟩) 3 =
        FetchResult.thrown referenceErrorT ∧
      ∀ v : List TPSHistoryPoint,
        fetchWithRetry (fun _ => AttemptOutcome.thrown ⟨false, false⟩) 3 ≠
          FetchResult.value v :=
  fetchWithRetry_exhausts_throws
    (fun _ => AttemptOutcome.thrown ⟨false, false⟩) 3 (fun _ => rfl)

/-! ### C7 -/

/-- C7: evaluating the code on the claim's scenario: if attempt `k` of a
`fetchWithRetry` call fails with a CORS-class error (after `k` earlier
retryable failures), no further retry attempt happens — exactly `k + 1`
transport invocations are made, the short-circuit half of the claim — but
the catch block's `return getFallbackData<T>()` (src/api.ts, line 88)
throws the `ReferenceError` from `fallbackData[T.name]` instead of
returning the type-appropriate fallback value immediately as the claim
states. -/
theorem fetchWithRetry_cors_throws {α : Type}
    (attempts : Nat → AttemptOutcome α) (retries k : Nat) (e : JsError)
    (hk : k < retries)
    (hpre : ∀ j, j < k → isRetryableFailure (attempts j) = true)
    (hth : attempts k = AttemptOutcome.thrown e)
    (he : isCorsError e = true) :
    fetchCalls attempts retries = k + 1 ∧
      fetchWithRetry attempts retries = FetchResult.thrown referenceErrorT ∧
      ∀ v : α, fetchWithRetry attempts retries ≠ FetchResult.value v := by
  have hmain := retryGo_cors attempts e he k retries 0 hk
    (fun j hj => by simpa using hpre j hj) (by simpa using hth)
  refine ⟨hmain.2, hmain.1, ?_⟩
  intro v hv
  unfold fetchWithRetry at hv
  rw [hmain.1] at hv
  exact FetchResult.noConfusion hv

/-- C7 witness: a first-attempt CORS failure with `retries = 3`: a single
transport call, then the thrown `ReferenceError` — no value returned. -/
theorem fetchWithRetry_cors_throws_witness :
    fetchCalls (α := List TPSHistoryPoint)
        (fun _ => AttemptOutcome.thrown ⟨true, true⟩) 3 = 0 + 1 ∧
      fetchWithRetry (α := List TPSHistoryPoint)
        (fun _ => AttemptOutcome.thrown ⟨true, true⟩) 3 =
        FetchResult.thrown referenceErrorT ∧
      ∀ v : List TPSHistoryPoint,
        fetchWithRetry (fun _ => AttemptOutcome.thrown ⟨true, true⟩) 3 ≠
          FetchResult.value v :=
  fetchWithRetry_cors_throws (fun _ => AttemptOutcome.thrown ⟨true, true⟩)
    3 0 ⟨true, true⟩ (by decide)
    (fun j hj => absurd hj (Nat.not_lt_zero j)) rfl rfl

/-! ### C10 -/

/-- C10: each `fetchWithRetry` call owns a single `AbortController` and a
single timeout timer shared by all its attempts (modelled by the single
abort threshold `a` of `abortedTrace`, constant across the loop, as the
controller and timer are created once before the loop at lines 45–46 and
never reset); once the timeout has fired and aborted the controller before
attempt `a`, every attempt from `a` on fails immediately on the
already-aborted signal, so if no earlier attempt succeeded the call can
never produce a success: it ends in the exhaustion path (which, in the
source, throws the `getFallbackData` `ReferenceError`). -/
theorem fetchWithRetry_aborted_never_succeeds {α : Type}
    (attempts : Nat → AttemptOutcome α) (retries a : Nat)
    (h : ∀ i, i < a → isSuccessB (attempts i) = false) :
    fetchWithRetry (abortedTrace a attempts) retries =
        FetchResult.thrown referenceErrorT ∧
      ∀ v : α, fetchWithRetry (abortedTrace a attempts) retries ≠
        FetchResult.value v := by
  have hmain := retryGo_aborted attempts a h retries 0
  refine ⟨hmain, ?_⟩
  intro v hv
  unfold fetchWithRetry at hv
  rw [hmain] at hv
  exact FetchResult.noConfusion hv

/-- C10 witness: abort before the second attempt, first attempt a retryable
failure; even though the oracle would succeed from attempt 1 on, the call
never produces a success. -/
theorem fetchWithRetry_aborted_never_succeeds_witness :
    fetchWithRetry
        (abortedTrace 1 (fun i =>
          if i = 0 then AttemptOutcome.thrown ⟨false, false⟩
          else AttemptOutcome.success ([] : List TPSHistoryPoint))) 3 =
        FetchResult.thrown referenceErrorT ∧
      ∀ v : List TPSHistoryPoint,
        fetchWithRetry
          (abortedTrace 1 (fun i =>
            if i = 0 then AttemptOutcome.thrown ⟨false, false⟩
            else AttemptOutcome.success ([] : List TPSHistoryPoint))) 3 ≠
          FetchResult.value v :=
  fetchWithRetry_aborted_never_succeeds _ 3 1
    (fun i hi => by
      interval_cases i
      rfl)

/-! ### C2 -/

/-- C2: `fetchWithCache` serves the cached value without invoking the
fetcher exactly when an entry for the key exists with
`now - storedAt < ttl` (and then returns that entry's data unchanged);
two calls within `ttl` of each other invoke the fetcher at most once; and a
call made when `now - storedAt >= ttl` invokes the fetcher again. -/
theorem fetchWithCache_ttl {α : Type} (c : CacheMap α) (key : String)
    (v1 v2 : α) (t1 t2 dur : Int) (hspan : t2 - t1 < dur) :
    ((fetchWithCache key v1 dur c t1).fetcherInvoked = false ↔
        ∃ e, cacheGet c key = some e ∧ t1 - e.timestamp < dur) ∧
      (∀ e, cacheGet c key = some e → t1 - e.timestamp < dur →
        (fetchWithCache key v1 dur c t1).value = e.data) ∧
      ¬((fetchWithCache key v1 dur c t1).fetcherInvoked = true ∧
        (fetchWithCache key v2 dur (fetchWithCache key v1 dur c t1).cache
          t2).fetcherInvoked = true) ∧
      (∀ e, cacheGet c key = some e → dur ≤ t1 - e.timestamp →
        (fetchWithCache key v1 dur c t1).fetcherInvoked = true) := by
  refine ⟨?_, ?_, ?_, ?_⟩
  · cases hget : cacheGet c key with
    | none => simp [fetchWithCache, hget]
    | some e0 =>
      by_cases hfr : t1 - e0.timestamp < dur
      · simp only [fetchWithCache, hget, if_pos hfr]
        simp [hfr]
      · simp only [fetchWithCache, hget, if_neg hfr]
        simp [hfr]
  · intro e hget hfr
    simp [fetchWithCache, hget, hfr]
  · rintro ⟨h1, h2⟩
    have hcache : (fetchWithCache key v1 dur c t1).cache =
        cacheSet c key ⟨v1, t1⟩ := by
      cases hget : cacheGet c key with
      | none => simp [fetchWithCache, hget]
      | some e0 =>
        by_cases hfr : t1 - e0.timestamp < dur
        · simp [fetchWithCache, hget, hfr] at h1
        · simp [fetchWithCache, hget, hfr]
    rw [hcache] at h2
    have hrefetch := cacheGet_cacheSet_self c key ⟨v1, t1⟩
    simp [fetchWithCache, hrefetch, hspan] at h2
  · intro e hget hstale
    have hfr : ¬(t1 - e.timestamp < dur) := not_lt.mpr hstale
    simp [fetchWithCache, hget, hfr]

/-- C2 witness: with an empty cache, a call at time 0 invokes the fetcher,
and a second call at time 1 with TTL 900000 does not. -/
theorem fetchWithCache_ttl_witness :
    ((1 : Int) - 0 < 900000) ∧
      (((fetchWithCache "chains" (5 : ℚ) 900000 [] 0).fetcherInvoked = false ↔
          ∃ e, cacheGet ([] : CacheMap ℚ) "chains" = some e ∧
            (0 : Int) - e.timestamp < 900000) ∧
        (∀ e, cacheGet ([] : CacheMap ℚ) "chains" = some e →
          (0 : Int) - e.timestamp < 900000 →
          (fetchWithCache "chains" (5 : ℚ) 900000 [] 0).value = e.data) ∧
        ¬((fetchWithCache "chains" (5 : ℚ) 900000 [] 0).fetcherInvoked = true ∧
          (fetchWithCache "chains" (7 : ℚ) 900000
            (fetchWithCache "chains" (5 : ℚ) 900000 [] 0).cache
            1).fetcherInvoked = true) ∧
        (∀ e, cacheGet ([] : CacheMap ℚ) "chains" = some e →
          (900000 : Int) ≤ 0 - e.timestamp →
          (fetchWithCache "chains" (5 : ℚ) 900000 [] 0).fetcherInvoked = true)) :=
  ⟨by decide, fetchWithCache_ttl [] "chains" 5 7 0 1 900000 (by decide)⟩

/-! ### C9 -/

/-- C9: when an accessor's producer degrades to its fallback value,
`fetchWithCache` stores that fallback under the accessor's key with the
current timestamp exactly as it would a successful result, and every
subsequent call for the same key within the TTL returns the fallback
without invoking the producer again. -/
theorem fetchWithCache_stores_fallback {α : Type} (c : CacheMap α)
    (key : String) (fb v2 : α) (now now2 dur : Int)
    (hmiss : cacheGet c key = none) (hfresh : now2 - now < dur) :
    (fetchWithCache key fb dur c now).value = fb ∧
      (fetchWithCache key fb dur c now).fetcherInvoked = true ∧
      cacheGet (fetchWithCache key fb dur c now).cache key =
        some ⟨fb, now⟩ ∧
      (fetchWithCache key v2 dur (fetchWithCache key fb dur c now).cache
        now2).value = fb ∧
      (fetchWithCache key v2 dur (fetchWithCache key fb dur c now).cache
        now2).fetcherInvoked = false := by
  have hcache : (fetchWithCache key fb dur c now).cache =
      cacheSet c key ⟨fb, now⟩ := by
    simp [fetchWithCache, hmiss]
  have hget2 := cacheGet_cacheSet_self c key (⟨fb, now⟩ : CacheEntry α)
  refine ⟨by simp [fetchWithCache, hmiss], by simp [fetchWithCache, hmiss],
    ?_, ?_, ?_⟩
  · rw [hcache]; exact hget2
  · rw [hcache]; simp [fetchWithCache, hget2, hfresh]
  · rw [hcache]; simp [fetchWithCache, hget2, hfresh]

/-- C9 witness: `getTVLHealth`'s producer degrades to the stale zeroed
fallback; it is cached under `tvl-health` at time 0 and served, without a
new fetch, at time 60000 with the 15-minute TTL. -/
theorem fetchWithCache_stores_fallback_witness :
    cacheGet ([] : CacheMap TVLHealth) "tvl-health" = none ∧
      ((60000 : Int) - 0 < 900000) ∧
      ((fetchWithCache "tvl-health" (tvlHealthFallback "t0") 900000 [] 0).value =
          tvlHealthFallback "t0" ∧
        (fetchWithCache "tvl-health" (tvlHealthFallback "t0") 900000 []
          0).fetcherInvoked = true ∧
        cacheGet (fetchWithCache "tvl-health" (tvlHealthFallback "t0") 900000 []
          0).cache "tvl-health" = some ⟨tvlHealthFallback "t0", 0⟩ ∧
        (fetchWithCache "tvl-health" (tvlHealthFallback "t1") 900000
          (fetchWithCache "tvl-health" (tvlHealthFallback "t0") 900000 [] 0).cache
          60000).value = tvlHealthFallback "t0" ∧
        (fetchWithCache "tvl-health" (tvlHealthFallback "t1") 900000
          (fetchWithCache "tvl-health" (tvlHealthFallback "t0") 900000 [] 0).cache
          60000).fetcherInvoked = false) :=
  ⟨rfl, by decide,
    fetchWithCache_stores_fallback [] "tvl-health" (tvlHealthFallback "t0")
      (tvlHealthFallback "t1") 0 60000 900000 rfl (by decide)⟩

/-! ### Score lemmas -/

theorem scoreCore_eq (n : ℕ) :
    (if n = 0 then (0 : ℤ)
      else min (round (if 10 < n then (85 : ℚ) + min (((n : ℚ) - 10) / 90 * 15) 15
        else if n = 10 then 85
        else if 5 < n then 0 + 20 + 20 else 0 + 20)) 100) = scoreOfCount n := by
  by_cases h0 : n = 0
  · simp [h0, scoreOfCount]
  by_cases h10g : 10 < n
  · have h1 : ¬n ≤ 5 := by omega
    have h2 : ¬n ≤ 9 := by omega
    have h3 : n ≠ 10 := by omega
    simp [scoreOfCount, h0, h1, h2, h3, h10g]
  by_cases h10 : n = 10
  · have h1 : ¬n ≤ 5 := by omega
    have h2 : ¬n ≤ 9 := by omega
    simp only [scoreOfCount, h0, h1, h2, h10, h10g, if_true, if_false,
      ite_true, ite_false, reduceIte]
    norm_num
  by_cases h5 : 5 < n
  · have h1 : ¬n ≤ 5 := by omega
    have h2 : n ≤ 9 := by omega
    simp only [scoreOfCount, h0, h1, h2, h5, h10, h10g, if_true, if_false,
      ite_true, ite_false, reduceIte]
    norm_num
  · have h1 : n ≤ 5 := by omega
    simp only [scoreOfCount, h0, h1, h5, h10, h10g, if_true, if_false,
      ite_true, ite_false, reduceIte]
    norm_num

theorem calculateScore_eq_scoreOfCount (vs : List RawValidator) (tvl tps : ℚ) :
    calculateScore vs tvl tps = scoreOfCount (vs.filter isActiveForScore).length :=
  scoreCore_eq (vs.filter isActiveForScore).length

/-! ### C3 -/

/-- C3: the chain score is a function of the active-validator count `n`
(positive numeric stake and status exactly `active`): 0 at `n = 0`, 20 for
`1 ≤ n ≤ 5`, 40 for `6 ≤ n ≤ 9`, exactly 85 at `n = 10`, and
`round(85 + min((n-10)/90*15, 15))` capped at 100 for `n > 10`; over counts
0..9 it is the non-decreasing step function (0, 20, 20, 20, 20, 20, 40, 40,
40, 40), with the fixed value 85 at exactly 10. -/
theorem calculateScore_spec (vs : List RawValidator) (tvl tps : ℚ) :
    calculateScore vs tvl tps = scoreOfCount (vs.filter isActiveForScore).length ∧
      (List.range 10).map scoreOfCount = [0, 20, 20, 20, 20, 20, 40, 40, 40, 40] ∧
      scoreOfCount 10 = 85 ∧
      (∀ i j, i ≤ j → j ≤ 9 → scoreOfCount i ≤ scoreOfCount j) := by
  refine ⟨calculateScore_eq_scoreOfCount vs tvl tps, by decide, by decide, ?_⟩
  intro i j hij hj
  have hi : i ≤ 9 := le_trans hij hj
  interval_cases i <;> interval_cases j <;> decide

/-- C3 witness: the score specification applied to the empty validator
list. -/
theorem calculateScore_spec_witness :
    calculateScore [] 0 0 =
        scoreOfCount (([] : List RawValidator).filter isActiveForScore).length ∧
      (List.range 10).map scoreOfCount = [0, 20, 20, 20, 20, 20, 40, 40, 40, 40] ∧
      scoreOfCount 10 = 85 ∧
      (∀ i j, i ≤ j → j ≤ 9 → scoreOfCount i ≤ scoreOfCount j) :=
  calculateScore_spec [] 0 0

/-! ### C8 -/

/-- C8: `getTPSHistory` is total on malformed envelopes: a
`success: false` envelope yields `[]` whatever the `data` field holds, a
missing/non-array `data` field yields `[]` whatever `success` is, and a
thrown error anywhere in the fetcher is caught and converted to `[]` —
never an exception crossing the accessor boundary. -/
theorem getTPSHistory_malformed_total (d : Option (List TPSItemRaw)) (s : Bool) :
    processTPSHistory ⟨false, d⟩ = [] ∧
      processTPSHistory ⟨s, none⟩ = [] ∧
      getTPSHistoryResult (Except.error ()) = [] := by
  refine ⟨?_, ?_, rfl⟩
  · cases d <;> rfl
  · cases s <;> rfl

/-! ### C5 -/

/-- C5 counterexample: the claim says normalized stake weight is never
`NaN`, but `getChains` maps `weight := Number(validator.amountStaked)`,
which is `NaN` (modelled `none`) on a malformed backend value: for an
active validator whose `amountStaked` does not parse, the normalized weight
is `NaN`. -/
theorem mapValidator_nan_cex :
    (mapValidator false ⟨"v1", "active", RawVal.malformed, RawVal.num 99⟩).weight
      = none := rfl

/-- C5 amended: `getChains`' normalization passes `uptimePerformance`
through unchanged and sets `weight = Number(amountStaked)` — so a
non-numeric stake yields a `NaN` weight and a numeric (even negative) stake
is preserved uncoerced; coercion of malformed stake to `0` happens only in
`calculateStakeDistribution` via `parseFloat(x) || 0`. -/
theorem mapValidator_amended (b : Bool) (v : RawValidator) :
    (mapValidator b v).uptime = v.uptimePerformance ∧
      (mapValidator b v).weight = jsNumber v.amountStaked ∧
      (v.amountStaked = RawVal.malformed →
        (mapValidator b v).weight = none ∧ coercedStake v = 0) ∧
      (∀ q, v.amountStaked = RawVal.num q → (mapValidator b v).weight = some q) := by
  refine ⟨rfl, rfl, ?_, ?_⟩
  · intro h
    exact ⟨by simp [mapValidator, jsNumber, h],
      by simp [coercedStake, parseFloat, h, orZero]⟩
  · intro q h
    simp [mapValidator, jsNumber, h]

/-- C5 witness: the amended statement at a concrete malformed-stake
validator. -/
theorem mapValidator_amended_witness :
    (mapValidator false ⟨"v1", "active", RawVal.malformed, RawVal.num 99⟩).uptime
        = RawVal.num 99 ∧
      (mapValidator false ⟨"v1", "active", RawVal.malformed, RawVal.num 99⟩).weight
        = jsNumber RawVal.malformed ∧
      ((RawVal.malformed : RawVal) = RawVal.malformed →
        (mapValidator false ⟨"v1", "active", RawVal.malformed, RawVal.num 99⟩).weight
            = none ∧
          coercedStake ⟨"v1", "active", RawVal.malformed, RawVal.num 99⟩ = 0) ∧
      (∀ q, (RawVal.malformed : RawVal) = RawVal.num q →
        (mapValidator false ⟨"v1", "active", RawVal.malformed, RawVal.num 99⟩).weight
          = some q) :=
  mapValidator_amended false ⟨"v1", "active", RawVal.malformed, RawVal.num 99⟩

/-! ### Stake-distribution lemmas -/

theorem foldl_add_map (f : RawValidator → ℚ) (l : List RawValidator) (a : ℚ) :
    l.foldl (fun s v => s + f v) a = a + (l.map f).sum := by
  induction l generalizing a with
  | nil => simp
  | cons x t ih => simp [ih, add_assoc]

theorem sum_map_div_mul (f : RawValidator → ℚ) (W : ℚ) (l : List RawValidator) :
    (l.map fun v => f v / W * 100).sum = (l.map f).sum / W * 100 := by
  induction l with
  | nil => simp
  | cons x t ih =>
    simp only [List.map_cons, List.sum_cons, ih]
    ring

/-! ### C4 -/

/-- C4 counterexample: the claim says the transform returns an empty
distribution list whenever the total active stake is 0, but for a single
active validator whose stake coerces to 0 the total active stake is 0 and
the transform returns a non-empty list (of one entry, with a `NaN`
percentage). -/
theorem calculateStakeDistribution_zero_total_cex :
    totalActiveStake [⟨"v1", "active", RawVal.malformed, RawVal.num 99⟩] = 0 ∧
      calculateStakeDistribution [⟨"v1", "active", RawVal.malformed, RawVal.num 99⟩]
        ≠ [] := by
  constructor
  · simp [totalActiveStake, activeValidatorsOf, isActiveStatus, coercedStake,
      parseFloat, orZero]
  · simp [calculateStakeDistribution, activeValidatorsOf, isActiveStatus,
      totalActiveStake, coercedStake, parseFloat, orZero, stakeDistEntryOf]

/-- C4 amended: for each active validator the computed percentage is
`100 * weight / totalActiveStake` and the exact percentages sum to 100
whenever the total active stake is positive; the transform returns the
empty list exactly when there are no active validators (in particular on an
empty input); when active validators exist but the total active stake is 0,
the result is non-empty with `NaN` (`none`) percentage values rather than
empty. -/
theorem calculateStakeDistribution_props (vs : List RawValidator) :
    (0 < totalActiveStake vs →
      ((activeValidatorsOf vs).map
        (fun v => coercedStake v / totalActiveStake vs * 100)).sum = 100) ∧
      (calculateStakeDistribution vs = [] ↔ activeValidatorsOf vs = []) ∧
      (calculateStakeDistribution vs).length = (activeValidatorsOf vs).length ∧
      (∀ ent ∈ calculateStakeDistribution vs, ∃ v ∈ activeValidatorsOf vs,
        ent = stakeDistEntryOf (totalActiveStake vs) v) ∧
      (totalActiveStake vs = 0 → ∀ ent ∈ calculateStakeDistribution vs,
        ent.value = none) := by
  have hsum : ((activeValidatorsOf vs).map coercedStake).sum = totalActiveStake vs := by
    rw [totalActiveStake, foldl_add_map, zero_add]
  have hmem : ∀ ent ∈ calculateStakeDistribution vs, ∃ v ∈ activeValidatorsOf vs,
      ent = stakeDistEntryOf (totalActiveStake vs) v := by
    intro ent hent
    cases vs with
    | nil => simp [calculateStakeDistribution] at hent
    | cons x t =>
      rw [calculateStakeDistribution, List.mem_insertionSort, List.mem_map] at hent
      obtain ⟨v, hv, heq⟩ := hent
      exact ⟨v, hv, heq.symm⟩
  refine ⟨?_, ?_, ?_, hmem, ?_⟩
  · intro h
    have hW : totalActiveStake vs ≠ 0 := ne_of_gt h
    rw [sum_map_div_mul, hsum]
    field_simp
  · cases vs with
    | nil => simp [calculateStakeDistribution, activeValidatorsOf]
    | cons x t =>
      rw [calculateStakeDistribution]
      constructor
      · intro h
        have hlen := congrArg List.length h
        simp [List.length_insertionSort] at hlen
        exact hlen
      · intro h
        simp [h]
  · cases vs with
    | nil => simp [calculateStakeDistribution, activeValidatorsOf]
    | cons x t =>
      rw [calculateStakeDistribution]
      simp [List.length_insertionSort]
  · intro h0 ent hent
    obtain ⟨v, _, rfl⟩ := hmem ent hent
    simp [stakeDistEntryOf, h0]

/-- C4 witness: the amended statement at a concrete two-validator list with
positive total active stake. -/
theorem calculateStakeDistribution_props_witness :
    (0 < totalActiveStake
        [⟨"v1", "active", RawVal.num 60, RawVal.num 99⟩,
         ⟨"v2", "active", RawVal.num 40, RawVal.num 98⟩] →
      ((activeValidatorsOf
          [⟨"v1", "active", RawVal.num 60, RawVal.num 99⟩,
           ⟨"v2", "active", RawVal.num 40, RawVal.num 98⟩]).map
        (fun v => coercedStake v / totalActiveStake
          [⟨"v1", "active", RawVal.num 60, RawVal.num 99⟩,
           ⟨"v2", "active", RawVal.num 40, RawVal.num 98⟩] * 100)).sum = 100) ∧
      (calculateStakeDistribution
          [⟨"v1", "active", RawVal.num 60, RawVal.num 99⟩,
           ⟨"v2", "active", RawVal.num 40, RawVal.num 98⟩] = [] ↔
        activeValidatorsOf
          [⟨"v1", "active", RawVal.num 60, RawVal.num 99⟩,
           ⟨"v2", "active", RawVal.num 40, RawVal.num 98⟩] = []) ∧
      (calculateStakeDistribution
          [⟨"v1", "active", RawVal.num 60, RawVal.num 99⟩,
           ⟨"v2", "active", RawVal.num 40, RawVal.num 98⟩]).length =
        (activeValidatorsOf
          [⟨"v1", "active", RawVal.num 60, RawVal.num 99⟩,
           ⟨"v2", "active", RawVal.num 40, RawVal.num 98⟩]).length ∧
      (∀ ent ∈ calculateStakeDistribution
          [⟨"v1", "active", RawVal.num 60, RawVal.num 99⟩,
           ⟨"v2", "active", RawVal.num 40, RawVal.num 98⟩],
        ∃ v ∈ activeValidatorsOf
          [⟨"v1", "active", RawVal.num 60, RawVal.num 99⟩,
           ⟨"v2", "active", RawVal.num 40, RawVal.num 98⟩],
          ent = stakeDistEntryOf (totalActiveStake
            [⟨"v1", "active", RawVal.num 60, RawVal.num 99⟩,
             ⟨"v2", "active", RawVal.num 40, RawVal.num 98⟩]) v) ∧
      (totalActiveStake
          [⟨"v1", "active", RawVal.num 60, RawVal.num 99⟩,
           ⟨"v2", "active", RawVal.num 40, RawVal.num 98⟩] = 0 →
        ∀ ent ∈ calculateStakeDistribution
          [⟨"v1", "active", RawVal.num 60, RawVal.num 99⟩,
           ⟨"v2", "active", RawVal.num 40, RawVal.num 98⟩],
          ent.value = none) :=
  calculateStakeDistribution_props
    [⟨"v1", "active", RawVal.num 60, RawVal.num 99⟩,
     ⟨"v2", "active", RawVal.num 40, RawVal.num 98⟩]

/-! ### Day-map lemmas for deduplicateByDate -/

theorem alookup_eq_none_iff (k : Int) (m : List (Int × TVLEntry)) :
    alookup k m = none ↔ ∀ x ∈ m, x.1 ≠ k := by
  induction m with
  | nil => simp [alookup]
  | cons y ys ih =>
    by_cases h : y.1 = k
    · simp [alookup, h]
    · simp [alookup, h, ih]

theorem alookup_mem {k : Int} {m : List (Int × TVLEntry)} {v : TVLEntry}
    (h : alookup k m = some v) : (k, v) ∈ m := by
  induction m with
  | nil => simp [alookup] at h
  | cons y ys ih =>
    by_cases hy : y.1 = k
    · rw [alookup, if_pos hy] at h
      obtain ⟨a, b⟩ := y
      obtain rfl : b = v := Option.some_injective _ h
      exact hy ▸ List.mem_cons_self _ _
    · rw [alookup, if_neg hy] at h
      exact List.mem_cons_of_mem _ (ih h)

theorem alookup_unique {k : Int} {m : List (Int × TVLEntry)} {v : TVLEntry}
    (hnd : (m.map Prod.fst).Nodup) (h : alookup k m = some v) :
    ∀ x ∈ m, x.1 = k → x.2 = v := by
  induction m with
  | nil => intro x hx; simp at hx
  | cons y ys ih =>
    simp only [List.map_cons, List.nodup_cons] at hnd
    intro x hx hxk
    rcases List.mem_cons.mp hx with rfl | hx'
    · rw [alookup, if_pos hxk] at h
      exact Option.some_injective _ h
    · by_cases hyk : y.1 = k
      · exfalso
        apply hnd.1
        rw [hyk, ← hxk]
        exact List.mem_map_of_mem Prod.fst hx'
      · rw [alookup, if_neg hyk] at h
        exact ih hnd.2 h x hx' hxk

theorem mapUpsert_inv {tz : Int} {p : List TVLEntry} {m : List (Int × TVLEntry)}
    (h : MapInv tz p m) (e : TVLEntry) :
    MapInv tz (p ++ [e]) (mapUpsert tz m e) := by
  obtain ⟨hent, hcov, hnd⟩ := h
  simp only [mapUpsert]
  cases hl : alookup (dayKey tz e.date) m with
  | none =>
    have hfresh : ∀ x ∈ m, x.1 ≠ dayKey tz e.date := (alookup_eq_none_iff _ _).mp hl
    refine ⟨?_, ?_, ?_⟩
    · intro x hx
      rcases List.mem_append.mp hx with hx' | hx'
      · obtain ⟨hk, hmem, hmax⟩ := hent x hx'
        refine ⟨hk, List.mem_append_left _ hmem, ?_⟩
        intro e2 he2 hkey
        rcases List.mem_append.mp he2 with he2' | he2'
        · exact hmax e2 he2' hkey
        · rcases List.mem_singleton.mp he2' with rfl
          exact absurd hkey.symm (hfresh x hx')
      · rcases List.mem_singleton.mp hx' with rfl
        refine ⟨rfl, List.mem_append_right _ (List.mem_singleton_self e), ?_⟩
        intro e2 he2 hkey
        rcases List.mem_append.mp he2 with he2' | he2'
        · exfalso
          obtain ⟨x', hx', hk'⟩ := hcov e2 he2'
          exact hfresh x' hx' (hk'.trans hkey)
        · rcases List.mem_singleton.mp he2' with rfl
          exact le_refl _
    · intro e2 he2
      rcases List.mem_append.mp he2 with he2' | he2'
      · obtain ⟨x, hx, hk⟩ := hcov e2 he2'
        exact ⟨x, List.mem_append_left _ hx, hk⟩
      · have he2e : e2 = e := List.mem_singleton.mp he2'
        exact ⟨(dayKey tz e.date, e),
          List.mem_append_right _ (List.mem_singleton_self _), by rw [he2e]⟩
    · rw [List.map_append]
      refine List.Nodup.append hnd (by simp) ?_
      intro a ha hb
      simp only [List.map_cons, List.map_nil, List.mem_singleton] at hb
      obtain ⟨x, hx, rfl⟩ := List.mem_map.mp ha
      exact hfresh x hx hb
  | some old =>
    have hmem_old : (dayKey tz e.date, old) ∈ m := alookup_mem hl
    obtain ⟨hk_old, hold_mem, hold_max⟩ := hent _ hmem_old
    show MapInv tz (p ++ [e])
      (if old.date < e.date then
        List.map (fun x => if x.1 = dayKey tz e.date then (dayKey tz e.date, e) else x) m
      else m)
    by_cases hlt : old.date < e.date
    · rw [if_pos hlt]
      refine ⟨?_, ?_, ?_⟩
      · intro x' hx'
        obtain ⟨x, hx, rfl⟩ := List.mem_map.mp hx'
        by_cases hxk : x.1 = dayKey tz e.date
        · rw [if_pos hxk]
          refine ⟨rfl, List.mem_append_right _ (List.mem_singleton_self _), ?_⟩
          intro e2 he2 hkey
          rcases List.mem_append.mp he2 with he2' | he2'
          · exact le_of_lt (lt_of_le_of_lt (hold_max e2 he2' hkey) hlt)
          · rcases List.mem_singleton.mp he2' with rfl
            exact le_refl _
        · rw [if_neg hxk]
          obtain ⟨hk, hmem, hmax⟩ := hent x hx
          refine ⟨hk, List.mem_append_left _ hmem, ?_⟩
          intro e2 he2 hkey
          rcases List.mem_append.mp he2 with he2' | he2'
          · exact hmax e2 he2' hkey
          · rcases List.mem_singleton.mp he2' with rfl
            exact absurd hkey.symm hxk
      · intro e2 he2
        rcases List.mem_append.mp he2 with he2' | he2'
        · obtain ⟨x, hx, hk⟩ := hcov e2 he2'
          refine ⟨if x.1 = dayKey tz e.date then (dayKey tz e.date, e) else x,
            List.mem_map.mpr ⟨x, hx, rfl⟩, ?_⟩
          by_cases hxk : x.1 = dayKey tz e.date
          · rw [if_pos hxk]
            exact hxk.symm.trans hk
          · rw [if_neg hxk]
            exact hk
        · have he2e : e2 = e := List.mem_singleton.mp he2'
          refine ⟨(dayKey tz e.date, e), ?_, by rw [he2e]⟩
          exact List.mem_map.mpr ⟨(dayKey tz e.date, old), hmem_old, by simp⟩
      · have hsame : ((m.map fun x =>
            if x.1 = dayKey tz e.date then (dayKey tz e.date, e) else x).map
              Prod.fst) = m.map Prod.fst := by
          rw [List.map_map]
          apply List.map_congr_left
          intro x hx
          by_cases hxk : x.1 = dayKey tz e.date
          · simp [hxk]
          · simp [hxk]
        rw [hsame]
        exact hnd
    · rw [if_neg hlt]
      have hle : e.date ≤ old.date := not_lt.mp hlt
      refine ⟨?_, ?_, hnd⟩
      · intro x hx
        obtain ⟨hk, hmem, hmax⟩ := hent x hx
        refine ⟨hk, List.mem_append_left _ hmem, ?_⟩
        intro e2 he2 hkey
        rcases List.mem_append.mp he2 with he2' | he2'
        · exact hmax e2 he2' hkey
        · rcases List.mem_singleton.mp he2' with rfl
          have hx2 : x.2 = old := alookup_unique hnd hl x hx hkey.symm
          rw [hx2]
          exact hle
      · intro e2 he2
        rcases List.mem_append.mp he2 with he2' | he2'
        · exact hcov e2 he2'
        · have he2e : e2 = e := List.mem_singleton.mp he2'
          exact ⟨(dayKey tz e.date, old), hmem_old, by rw [he2e]⟩

theorem foldl_mapUpsert_inv (tz : Int) :
    ∀ (l p : List TVLEntry) (m : List (Int × TVLEntry)), MapInv tz p m →
      MapInv tz (p ++ l) (l.foldl (mapUpsert tz) m) := by
  intro l
  induction l with
  | nil => intro p m h; simpa using h
  | cons a t ih =>
    intro p m h
    have hstep := mapUpsert_inv h a
    have := ih (p ++ [a]) (mapUpsert tz m a) hstep
    simpa [List.append_assoc] using this

theorem dedup_map_inv (tz : Int) (data : List TVLEntry) :
    MapInv tz data (data.foldl (mapUpsert tz) []) := by
  have := foldl_mapUpsert_inv tz data [] []
    ⟨by simp, by simp, by simp⟩
  simpa using this

theorem foldl_mapUpsert_clean (tz : Int) :
    ∀ (l p : List TVLEntry),
      ((p ++ l).map (fun e => dayKey tz e.date)).Nodup →
      l.foldl (mapUpsert tz) (p.map (fun e => (dayKey tz e.date, e))) =
        (p ++ l).map (fun e => (dayKey tz e.date, e)) := by
  intro l
  induction l with
  | nil => intro p _; simp
  | cons a t ih =>
    intro p h
    have hfresh : alookup (dayKey tz a.date)
        (p.map fun e => (dayKey tz e.date, e)) = none := by
      rw [alookup_eq_none_iff]
      intro x hx
      obtain ⟨e, he, rfl⟩ := List.mem_map.mp hx
      rw [List.map_append, List.nodup_append] at h
      intro hcontra
      apply h.2.2 (List.mem_map_of_mem (fun e => dayKey tz e.date) he)
      simp only [List.map_cons, List.mem_cons]
      exact Or.inl hcontra
    have hstep : mapUpsert tz (p.map fun e => (dayKey tz e.date, e)) a =
        (p ++ [a]).map (fun e => (dayKey tz e.date, e)) := by
      simp only [mapUpsert, hfresh, List.map_append, List.map_cons, List.map_nil]
    rw [List.foldl_cons, hstep, ih (p ++ [a]) (by simpa using h)]
    simp

theorem dedup_of_clean (tz : Int) (l : List TVLEntry)
    (hnd : (l.map (fun e => dayKey tz e.date)).Nodup)
    (hsrt : List.Sorted dateLe l) :
    deduplicateByDate tz l = l := by
  unfold deduplicateByDate
  have hfold := foldl_mapUpsert_clean tz l [] (by simpa using hnd)
  simp only [List.map_nil, List.nil_append] at hfold
  rw [hfold, List.map_map]
  have : (Prod.snd ∘ fun e : TVLEntry => (dayKey tz e.date, e)) = id := rfl
  rw [this, List.map_id]
  exact hsrt.insertionSort_eq

/-! ### C6 -/

/-- C6: `deduplicateByDate` groups TVL samples by calendar day (the local
midnight `dayKey`), keeps in each day bucket only a sample of the input with
maximal timestamp, represents every input day in the output, returns the
result sorted ascending by timestamp, and is idempotent. -/
theorem deduplicateByDate_spec (tz : Int) (data : List TVLEntry) :
    (∀ e ∈ deduplicateByDate tz data, e ∈ data ∧
      ∀ e2 ∈ data, dayKey tz e2.date = dayKey tz e.date → e2.date ≤ e.date) ∧
      (∀ e2 ∈ data, ∃ e ∈ deduplicateByDate tz data,
        dayKey tz e.date = dayKey tz e2.date) ∧
      List.Sorted dateLe (deduplicateByDate tz data) ∧
      deduplicateByDate tz (deduplicateByDate tz data) = deduplicateByDate tz data := by
  obtain ⟨hent, hcov, hnd⟩ := dedup_map_inv tz data
  constructor
  · intro e he
    rw [deduplicateByDate, List.mem_insertionSort, List.mem_map] at he
    obtain ⟨x, hx, rfl⟩ := he
    obtain ⟨hk, hm, hmax⟩ := hent x hx
    refine ⟨hm, ?_⟩
    intro e2 he2 hkey
    exact hmax e2 he2 (hkey.trans hk.symm)
  constructor
  · intro e2 he2
    obtain ⟨x, hx, hk⟩ := hcov e2 he2
    obtain ⟨hk1, _, _⟩ := hent x hx
    refine ⟨x.2, ?_, hk1.symm.trans hk⟩
    rw [deduplicateByDate, List.mem_insertionSort, List.mem_map]
    exact ⟨x, hx, rfl⟩
  have hsorted : List.Sorted dateLe (deduplicateByDate tz data) :=
    List.sorted_insertionSort dateLe _
  refine ⟨hsorted, ?_⟩
  apply dedup_of_clean tz _ ?_ hsorted
  have hperm : List.Perm (deduplicateByDate tz data)
      ((data.foldl (mapUpsert tz) []).map Prod.snd) :=
    List.perm_insertionSort dateLe _
  have hkeys : (((data.foldl (mapUpsert tz) []).map Prod.snd).map
      (fun e => dayKey tz e.date)) = (data.foldl (mapUpsert tz) []).map Prod.fst := by
    rw [List.map_map]
    apply List.map_congr_left
    intro x hx
    exact ((hent x hx).1).symm
  have hp2 := List.Perm.map (fun e => dayKey tz e.date) hperm
  rw [hkeys] at hp2
  exact hp2.nodup_iff.mpr hnd

/-- C6 witness: the specification applied to two samples of the same local
day (UTC); the later one is kept. -/
theorem deduplicateByDate_spec_witness :
    (∀ e ∈ deduplicateByDate 0 [⟨86400, 5⟩, ⟨90000, 6⟩],
      e ∈ [(⟨86400, 5⟩ : TVLEntry), ⟨90000, 6⟩] ∧
      ∀ e2 ∈ [(⟨86400, 5⟩ : TVLEntry), ⟨90000, 6⟩],
        dayKey 0 e2.date = dayKey 0 e.date → e2.date ≤ e.date) ∧
      (∀ e2 ∈ [(⟨86400, 5⟩ : TVLEntry), ⟨90000, 6⟩],
        ∃ e ∈ deduplicateByDate 0 [⟨86400, 5⟩, ⟨90000, 6⟩],
          dayKey 0 e.date = dayKey 0 e2.date) ∧
      List.Sorted dateLe (deduplicateByDate 0 [⟨86400, 5⟩, ⟨90000, 6⟩]) ∧
      deduplicateByDate 0 (deduplicateByDate 0 [⟨86400, 5⟩, ⟨90000, 6⟩]) =
        deduplicateByDate 0 [⟨86400, 5⟩, ⟨90000, 6⟩] :=
  deduplicateByDate_spec 0 [⟨86400, 5⟩, ⟨90000, 6⟩]

end L1Beat
